import Mathlib

/-!
Shallow embedding of the campaign-detection core of `server.py`
(live-cyber-threat-map): feature extraction, DBSCAN clustering,
threat-actor attribution, the campaign registry, the bounded attack
history, and the `/api/campaigns` endpoint gate.

Numeric values are modelled with `ℚ` (the Python code computes with
floats; all constants and the inputs relevant to the theorems below are
exactly representable, and no comparison in the code sits on a rounding
boundary for the inputs considered).
-/

namespace ThreatMap

/-! ### Timestamps

`server.py` stores timestamps as ISO-8601 strings and parses them with
`datetime.fromisoformat(ts.replace('Z', '+00:00'))`.  The parser below
follows CPython's (pre-3.11) `fromisoformat` grammar:
`YYYY-MM-DD[<any sep char>HH[:MM[:SS[.fff|.ffffff]]][+HH:MM[:SS[.ffffff]]]]`
with the `datetime`/`timezone` constructor range checks. -/

structure PyDateTime where
  year : ℕ
  month : ℕ
  day : ℕ
  hour : ℕ
  minute : ℕ
  second : ℕ
  microsecond : ℕ
  /-- `none` models a naive datetime; `some q` an aware one with a UTC
  offset of `q` minutes. -/
  tzOffsetMinutes : Option ℚ
  deriving Repr, DecidableEq

instance : Inhabited PyDateTime := ⟨⟨1, 1, 1, 0, 0, 0, 0, none⟩⟩

/-- Mirrors `ts.replace('Z', '+00:00')` (replaces every occurrence). -/
def replaceZ (s : String) : String :=
  String.mk ((s.data.map (fun c => if c = 'Z' then "+00:00".data else [c])).flatten)

def digitVal (c : Char) : ℕ := c.toNat - 48

/-- Two decimal digits. -/
def parse2 (l : List Char) : Option ℕ :=
  match l with
  | [a, b] => if a.isDigit && b.isDigit then some (10 * digitVal a + digitVal b) else none
  | _ => none

/-- Four decimal digits. -/
def parse4 (l : List Char) : Option ℕ :=
  match l with
  | [a, b, c, d] =>
    if a.isDigit && b.isDigit && c.isDigit && d.isDigit then
      some (1000 * digitVal a + 100 * digitVal b + 10 * digitVal c + digitVal d)
    else none
  | _ => none

def parseDigits (l : List Char) : Option ℕ :=
  if l.all Char.isDigit then some (l.foldl (fun acc c => 10 * acc + digitVal c) 0) else none

/-- CPython `_parse_hh_mm_ss_ff`: `HH[:MM[:SS[.fff|.ffffff]]]`, returning
(hour, minute, second, microsecond). -/
def parseHMSF (l : List Char) : Option (ℕ × ℕ × ℕ × ℕ) := do
  let hh ← parse2 (l.take 2)
  let rest := l.drop 2
  match rest with
  | [] => some (hh, 0, 0, 0)
  | ':' :: rest1 => do
    let mm ← parse2 (rest1.take 2)
    let rest2 := rest1.drop 2
    match rest2 with
    | [] => some (hh, mm, 0, 0)
    | ':' :: rest3 => do
      let ss ← parse2 (rest3.take 2)
      let rest4 := rest3.drop 2
      match rest4 with
      | [] => some (hh, mm, ss, 0)
      | '.' :: frac =>
        if frac.length = 3 then do
          let f ← parseDigits frac
          some (hh, mm, ss, f * 1000)
        else if frac.length = 6 then do
          let f ← parseDigits frac
          some (hh, mm, ss, f)
        else none
      | _ => none
    | _ => none
  | _ => none

/-- Number of days in a month of the (proleptic Gregorian) calendar. -/
def daysInMonth (y m : ℕ) : ℕ :=
  if m = 2 then
    if y % 4 = 0 && (y % 100 != 0 || y % 400 = 0) then 29 else 28
  else if m = 4 || m = 6 || m = 9 || m = 11 then 30
  else 31

/-- CPython `_parse_isoformat_time` on the substring after the separator:
splits off a timezone part at the first `'-'` (searched first) or `'+'`,
parses both parts with `parseHMSF`, and requires the tz part to have
length 5, 8 or 15.  Returns (h, m, s, μs, offset). -/
def parseIsoTime (l : List Char) : Option (ℕ × ℕ × ℕ × ℕ × Option ℚ) := do
  if l.length < 2 then none else
  let tzIdx : Option ℕ :=
    match l.indexOf? '-' with
    | some i => some i
    | none => l.indexOf? '+'
  let timePart := match tzIdx with | some i => l.take i | none => l
  let (hh, mm, ss, us) ← parseHMSF timePart
  if hh > 23 || mm > 59 || ss > 59 then none else
  match tzIdx with
  | none => some (hh, mm, ss, us, none)
  | some i => do
    let sign : ℚ := if l.get? i = some '-' then -1 else 1
    let tzstr := l.drop (i + 1)
    if tzstr.length = 5 || tzstr.length = 8 || tzstr.length = 15 then do
      let (th, tm, ts2, tus) ← parseHMSF tzstr
      let off : ℚ := sign * ((th : ℚ) * 60 + tm + (ts2 : ℚ) / 60 + (tus : ℚ) / 60000000)
      -- `timezone` requires the offset to lie strictly between -24h and 24h
      if off < 1440 ∧ -1440 < off then some (hh, mm, ss, us, some off) else none
    else none

/-- CPython (pre-3.11) `datetime.fromisoformat`: `YYYY-MM-DD` then, when
the string is longer, one arbitrary separator character and a time part.
The `datetime` constructor's range validations are applied. -/
def parsePyTimestamp (s : String) : Option PyDateTime := do
  let l := s.data
  if l.length < 10 then none else
  let y ← parse4 (l.take 4)
  if l.get? 4 ≠ some '-' then none else
  let mo ← parse2 ((l.drop 5).take 2)
  if l.get? 7 ≠ some '-' then none else
  let d ← parse2 ((l.drop 8).take 2)
  if ¬ (1 ≤ y ∧ y ≤ 9999 ∧ 1 ≤ mo ∧ mo ≤ 12 ∧ 1 ≤ d ∧ d ≤ daysInMonth y mo) then none else
  if l.length = 10 then
    some ⟨y, mo, d, 0, 0, 0, 0, none⟩
  else do
    let (hh, mm, ss, us, off) ← parseIsoTime (l.drop 11)
    some ⟨y, mo, d, hh, mm, ss, us, off⟩

/-- Days from 1970-01-01 of a civil date (Howard Hinnant's algorithm,
specialised to `1 ≤ y`, as validated by the parser). -/
def daysFromCivil (y m d : ℕ) : ℤ :=
  let y' := if m ≤ 2 then y - 1 else y
  let era := y' / 400
  let yoe := y' % 400
  let mp := if 2 < m then m - 3 else m + 9
  let doy := (153 * mp + 2) / 5 + (d - 1)
  let doe := yoe * 365 + yoe / 4 - yoe / 100 + doy
  (era * 146097 + doe : ℤ) - 719468

/-- Python `datetime.weekday()` (Monday = 0), computed from the date
fields.  1970-01-01 was a Thursday (= 3). -/
def pyWeekday (dt : PyDateTime) : ℕ :=
  ((daysFromCivil dt.year dt.month dt.day + 3).emod 7).toNat

/-- The instant of a datetime in minutes from the epoch.  Aware datetimes
subtract their UTC offset; naive ones are taken as-is (`server.py` only
ever compares/subtracts datetimes of equal awareness — its generator
always emits `+00:00`-aware timestamps). -/
def toUTCMinutes (dt : PyDateTime) : ℚ :=
  (daysFromCivil dt.year dt.month dt.day : ℚ) * 1440
    + (dt.hour : ℚ) * 60 + dt.minute + (dt.second : ℚ) / 60
    + (dt.microsecond : ℚ) / 60000000
    - (dt.tzOffsetMinutes.getD 0)

/-! ### Attack events and feature extraction -/

structure Attack where
  id : String
  attack_type : String
  source_country : String
  target_country : String
  source_lat : ℚ
  source_lng : ℚ
  intensity : ℚ
  timestamp : String
  deriving Repr, DecidableEq

instance : Inhabited Attack := ⟨⟨"", "", "", "", 0, 0, 0, ""⟩⟩

/-- `CampaignDetector._country_to_code`. -/
def countryToCode (country : String) : ℚ :=
  if country = "United States" then 1 else if country = "China" then 2
  else if country = "Russia" then 3 else if country = "Germany" then 4
  else if country = "United Kingdom" then 5 else if country = "France" then 6
  else if country = "Japan" then 7 else if country = "Brazil" then 8
  else if country = "India" then 9 else if country = "South Korea" then 10
  else if country = "Canada" then 11 else if country = "Australia" then 12
  else if country = "Netherlands" then 13 else if country = "Poland" then 14
  else if country = "Sweden" then 15 else 0

/-- `CampaignDetector._attack_type_to_code`. -/
def attackTypeToCode (t : String) : ℚ :=
  if t = "DDoS" then 1 else if t = "Botnet" then 2
  else if t = "Ransomware" then 3 else if t = "Malware" then 4
  else if t = "Phishing" then 5 else if t = "SQL Injection" then 6
  else if t = "XSS" then 7 else if t = "Brute Force" then 8 else 0

/-- The feature record built by `CampaignDetector.create_attack_features`;
`none` models the `ValueError` raised by `datetime.fromisoformat` on an
unparseable timestamp. -/
structure AttackFeatures where
  hour : ℚ
  day : ℚ
  country_code : ℚ
  attack_type_code : ℚ
  intensity : ℚ
  target_country_code : ℚ
  lat : ℚ
  lng : ℚ
  deriving Repr, DecidableEq

def create_attack_features (a : Attack) : Option AttackFeatures :=
  (parsePyTimestamp (replaceZ a.timestamp)).map (fun dt =>
    { hour := dt.hour
      day := pyWeekday dt
      country_code := countryToCode a.source_country
      attack_type_code := attackTypeToCode a.attack_type
      intensity := a.intensity
      target_country_code := countryToCode a.target_country
      lat := a.source_lat
      lng := a.source_lng })

/-- The 8-dimensional feature vector assembled in
`detect_campaigns` from the feature record. -/
def featureVectorOf (f : AttackFeatures) : List ℚ :=
  [f.hour, f.day, f.country_code, f.attack_type_code, f.intensity,
   f.target_country_code, f.lat / 90, f.lng / 180]

def createFeatureVector (a : Attack) : Option (List ℚ) :=
  (create_attack_features a).map featureVectorOf

/-! ### Attribution scoring (`CampaignDetector._attribute_threat_actor`
and its four sub-score helpers) -/

/-- Python 3 `round` rounds half to even. -/
def pyRoundInt (q : ℚ) : ℤ :=
  let f := ⌊q⌋
  let r := q - f
  if r < 1 / 2 then f
  else if 1 / 2 < r then f + 1
  else if f % 2 = 0 then f else f + 1

/-- Python `round(q, n)`. -/
def pyRound (q : ℚ) (n : ℕ) : ℚ :=
  (pyRoundInt (q * 10 ^ n) : ℚ) / 10 ^ n

/-- `CampaignDetector._get_signature_score`.  The argument is the
cluster's signature: its distinct attack types in first-seen order. -/
def getSignatureScore (attack_types : List String) : ℚ :=
  if "DDoS" ∈ attack_types ∧ "Malware" ∈ attack_types then 95 / 100
  else if "Ransomware" ∈ attack_types ∧ "Malware" ∈ attack_types then 90 / 100
  else if attack_types ≠ [] ∧ ∀ t ∈ attack_types, t = "DDoS" then 80 / 100
  else if attack_types ≠ [] ∧ ∀ t ∈ attack_types, t = "Brute Force" then 60 / 100
  else 50 / 100

/-- `CampaignDetector._get_geographic_score`. -/
def getGeographicScore (country : String) : ℚ :=
  if country = "Russia" then 92 / 100 else if country = "China" then 90 / 100
  else if country = "Iran" then 88 / 100 else if country = "North Korea" then 91 / 100
  else if country = "United States" then 75 / 100 else if country = "Brazil" then 80 / 100
  else if country = "Romania" then 82 / 100 else 40 / 100

/-- `CampaignDetector._get_timing_score`. -/
def getTimingScore (interval : ℚ) (num_attacks : ℕ) : ℚ :=
  if num_attacks < 3 then 50 / 100
  else if interval < 30 then 95 / 100
  else if interval < 60 then 88 / 100
  else if interval < 120 then 80 / 100
  else if interval < 720 then 65 / 100
  else 45 / 100

/-- `CampaignDetector._get_operational_score`. -/
def getOperationalScore (attack_types : List String) (num_attacks : ℕ) : ℚ :=
  let score : ℚ := 50 / 100
  let score := if 3 ≤ attack_types.dedup.length then score + 25 / 100
    else if 2 ≤ attack_types.dedup.length then score + 15 / 100
    else score
  let score := if 15 < num_attacks then score + 20 / 100
    else if 8 < num_attacks then score + 12 / 100
    else score
  min 1 score

structure Attribution where
  actor : String
  confidence : ℚ
  sophistication : String
  deriving Repr, DecidableEq

/-- `CampaignDetector._attribute_threat_actor`.  The decision chain binds
the per-rule constants `0.92 … 0.65` to a local `confidence`, but the
returned dict uses `round(min(0.97, weighted_confidence), 4)` — the
weighted composite — so the rule constants are dead stores; only `actor`
(and `sophistication`) escape the chain. -/
def attributeThreatActor (attack_types : List String) (country : String)
    (interval : ℚ) (num_attacks : ℕ) : Attribution :=
  let sig_score := getSignatureScore attack_types
  let geo_score := getGeographicScore country
  let timing_score := getTimingScore interval num_attacks
  let op_score := getOperationalScore attack_types num_attacks
  let weighted_confidence :=
    sig_score * (40 / 100) + geo_score * (25 / 100)
      + timing_score * (20 / 100) + op_score * (15 / 100)
  let actor :=
    if sig_score ≥ 90 / 100 ∧ geo_score ≥ 88 / 100 ∧ timing_score ≥ 75 / 100 then
      "State-Sponsored APT"
    else if "Ransomware" ∈ attack_types ∧ sig_score ≥ 85 / 100 ∧ op_score ≥ 65 / 100 then
      "Criminal Organization"
    else if (attack_types ≠ [] ∧ ∀ t ∈ attack_types, t = "DDoS") ∧ timing_score ≥ 70 / 100 then
      "Hacktivist Collective"
    else if sig_score ≤ 65 / 100 ∧ op_score ≤ 50 / 100 then
      "Script Kiddies"
    else
      "Unknown Threat"
  { actor := actor
    confidence := pyRound (min (97 / 100) weighted_confidence) 4
    sophistication :=
      if sig_score ≥ 85 / 100 then "High"
      else if sig_score ≥ 60 / 100 then "Medium" else "Low" }

/-- The fixed per-rule confidence constant selected by the decision chain
(the value the Python code binds to its local `confidence` and then never
returns). -/
def ruleConfidence (attack_types : List String) (country : String)
    (interval : ℚ) (num_attacks : ℕ) : ℚ :=
  let sig_score := getSignatureScore attack_types
  let geo_score := getGeographicScore country
  let timing_score := getTimingScore interval num_attacks
  let op_score := getOperationalScore attack_types num_attacks
  if sig_score ≥ 90 / 100 ∧ geo_score ≥ 88 / 100 ∧ timing_score ≥ 75 / 100 then 92 / 100
  else if "Ransomware" ∈ attack_types ∧ sig_score ≥ 85 / 100 ∧ op_score ≥ 65 / 100 then 89 / 100
  else if (attack_types ≠ [] ∧ ∀ t ∈ attack_types, t = "DDoS") ∧ timing_score ≥ 70 / 100 then 85 / 100
  else if sig_score ≤ 65 / 100 ∧ op_score ≤ 50 / 100 then 78 / 100
  else 65 / 100

/-- `CampaignDetector._calculate_severity`. -/
def calculateSeverity (attacks : List Attack) : ℚ :=
  let avg_intensity := (attacks.map (·.intensity)).sum / (attacks.map (·.intensity)).length
  let num_attacks := attacks.length
  pyRound (min 10 (avg_intensity * (6 / 10) + (min (num_attacks : ℚ) 10) * (4 / 10))) 2

/-! ### DBSCAN over standardized features

`detect_campaigns` standardizes the feature matrix with
`StandardScaler` (per-column `(x - mean) / sqrt(variance)`, population
variance; a zero-variance column's scale is replaced by 1) and runs
`DBSCAN(eps=0.5, min_samples=min_attacks_per_campaign)` in Euclidean
metric.  Square roots are avoided by comparing squared scaled distances
with `eps² = 1/4`: `Σⱼ ((xᵢⱼ-xₖⱼ)/σⱼ)² = Σⱼ (xᵢⱼ-xₖⱼ)²/varⱼ`, which is
rational (for a zero-variance column both the numerator and the variance
are 0, matching the scaler's `0/1 = 0`). -/

def colMean (xs : List ℚ) : ℚ := xs.sum / xs.length

def colVar (xs : List ℚ) : ℚ :=
  (xs.map (fun x => (x - colMean xs) ^ 2)).sum / xs.length

/-- The column of the feature matrix at dimension `j`. -/
def featCol (features : List (List ℚ)) (j : ℕ) : List ℚ :=
  features.map (fun row => row.getD j 0)

/-- Per-column squared scale of `StandardScaler` (variance, with the
zero-variance → 1 replacement of `_handle_zeros_in_scale`). -/
def varAdj (features : List (List ℚ)) (j : ℕ) : ℚ :=
  let v := colVar (featCol features j)
  if v = 0 then 1 else v

/-- Squared Euclidean distance of points `i` and `k` in standardized
feature space. -/
def scaledDistSq (features : List (List ℚ)) (i k : ℕ) : ℚ :=
  ((List.range 8).map (fun j =>
    ((features.getD i []).getD j 0 - (features.getD k []).getD j 0) ^ 2 / varAdj features j)).sum

/-- The eps-neighborhood of point `i` (sklearn's radius query uses
`distance ≤ eps` and includes the point itself). -/
def nbrs (features : List (List ℚ)) (i : ℕ) : List ℕ :=
  (List.range features.length).filter (fun k => scaledDistSq features i k ≤ 1 / 4)

/-- Core point: at least `min_samples` points (itself included) within eps. -/
def isCore (features : List (List ℚ)) (minPts : ℕ) (i : ℕ) : Bool :=
  minPts ≤ (nbrs features i).length

/-- Adjacency between core points (the edges along which DBSCAN merges). -/
def coreAdj (features : List (List ℚ)) (minPts : ℕ) (i k : ℕ) : Bool :=
  isCore features minPts i && isCore features minPts k
    && decide (scaledDistSq features i k ≤ 1 / 4)

/-- One step of closure: every in-range point already in `s` or
core-adjacent to a member of `s`. -/
def grow (features : List (List ℚ)) (minPts : ℕ) (s : List ℕ) : List ℕ :=
  (List.range features.length).filter
    (fun k => s.contains k || s.any (fun i => coreAdj features minPts i k))

def growIter (features : List (List ℚ)) (minPts : ℕ) : ℕ → List ℕ → List ℕ
  | 0, s => s
  | t + 1, s => growIter features minPts t (grow features minPts s)

/-- The density-connected core component of core point `i` (closure
saturates after `n` steps; the result is an ascending sublist of
`range n`). -/
def coreComp (features : List (List ℚ)) (minPts : ℕ) (i : ℕ) : List ℕ :=
  growIter features minPts features.length [i]

/-- The seed (minimal index) of `i`'s core component.  sklearn's outer
loop scans indices in order, so each component is expanded — and given
its label — when its minimal-index core is reached. -/
def compSeed (features : List (List ℚ)) (minPts : ℕ) (i : ℕ) : ℕ :=
  (coreComp features minPts i).headD i

/-- The seed of the cluster a point belongs to: a core point belongs to
its component;  a non-core point is a border of the earliest-expanded
(minimal-seed) component among those of its core neighbors, or noise
(`none`) if it has no core neighbor.  Clusters are expanded to completion
one at a time, so a contested border goes to the earliest component. -/
def seedOf (features : List (List ℚ)) (minPts : ℕ) (k : ℕ) : Option ℕ :=
  if isCore features minPts k then some (compSeed features minPts k)
  else (((nbrs features k).filter (fun q => isCore features minPts q)).map
    (fun q => compSeed features minPts q)).min?

/-- The clusters of `DBSCAN(eps=0.5, min_samples=minPts).fit_predict`,
as index lists in label order (noise excluded). -/
def dbscanClusters (features : List (List ℚ)) (minPts : ℕ) : List (List ℕ) :=
  let seeds := (List.range features.length).filter
    (fun i => isCore features minPts i && decide (compSeed features minPts i = i))
  seeds.map (fun s => (List.range features.length).filter
    (fun k => seedOf features minPts k == some s))

/-! ### Campaign creation and the detector's registry state -/

/-- The instant of an attack's (parsed) timestamp in minutes; the
`getD` default is irrelevant wherever this is used: `_create_campaign`
re-parses timestamps that feature extraction already parsed
successfully. -/
def eventInstant (a : Attack) : ℚ :=
  toUTCMinutes ((parsePyTimestamp (replaceZ a.timestamp)).getD default)

/-- Python `min(xs)` / `max(xs)` keep the first extremal element. -/
def pyMinBy (f : Attack → ℚ) (x : Attack) (xs : List Attack) : Attack :=
  xs.foldl (fun acc t => if f t < f acc then t else acc) x

def pyMaxBy (f : Attack → ℚ) (x : Attack) (xs : List Attack) : Attack :=
  xs.foldl (fun acc t => if f acc < f t then t else acc) x

/-- Occurrence counts in first-seen key order (a Python
`defaultdict(int)` built by iteration preserves insertion order). -/
def countsInOrder (keys : List String) : List (String × ℕ) :=
  keys.foldl (fun acc k =>
    if acc.any (fun p => p.1 = k) then
      acc.map (fun p => if p.1 = k then (p.1, p.2 + 1) else p)
    else acc ++ [(k, 1)]) []

/-- Python `max(d, key=d.get)`: the first key of maximal count. -/
def firstMaxKey (counts : List (String × ℕ)) : String :=
  match counts with
  | [] => ""
  | c :: cs => (cs.foldl (fun acc p => if acc.2 < p.2 then p else acc) c).1

/-- Consecutive differences `t[i] - t[i-1]`. -/
def consecDiffs (ts : List ℚ) : List ℚ := List.zipWith (· - ·) (ts.drop 1) ts

/-- The cluster's `avg_interval`: `np.mean(time_diffs) if time_diffs
else 0`, with `time_diffs` taken in the order the member attacks appear
in the history (cluster indices are ascending). -/
def clusterAvgInterval (attacks : List Attack) : ℚ :=
  let diffs := consecDiffs (attacks.map eventInstant)
  if diffs.isEmpty then 0 else diffs.sum / diffs.length

structure Campaign where
  campaignIdNum : ℕ
  campaign_id : String
  start_time : PyDateTime
  end_time : PyDateTime
  duration_minutes : ℚ
  num_attacks : ℕ
  attack_ids : List String
  primary_source_country : String
  attack_types_hist : List (String × ℕ)
  signature : List String
  avg_interval_minutes : ℚ
  attributed_actor : String
  confidence : ℚ
  sophistication : String
  severity_score : ℚ
  deriving Repr, DecidableEq

/-- `f"CAMPAIGN_{n:04d}"`. -/
def natDigits : ℕ → List Char
  | n =>
    if h : n < 10 then [Char.ofNat (48 + n)]
    else natDigits (n / 10) ++ [Char.ofNat (48 + n % 10)]
  decreasing_by exact Nat.div_lt_self (Nat.lt_of_lt_of_le (by norm_num) (Nat.le_of_not_lt h)) (by norm_num)

def pad4 (l : List Char) : List Char := List.replicate (4 - l.length) '0' ++ l

def formatCampaignId (n : ℕ) : String := String.mk ("CAMPAIGN_".data ++ pad4 (natDigits n))

structure DetectorState where
  campaigns : List (String × Campaign)
  attack_to_campaign : List (String × String)
  next_campaign_id : ℕ
  deriving Repr, DecidableEq

def initialDetectorState : DetectorState := ⟨[], [], 1⟩

/-- `CampaignDetector._create_campaign`: builds the campaign record,
allocates the next id and stores the record. -/
def createCampaign (s : DetectorState) (attacks : List Attack) (attack_ids : List String) :
    Campaign × DetectorState :=
  let first := attacks.headD default
  let start_att := pyMinBy eventInstant first (attacks.drop 1)
  let end_att := pyMaxBy eventInstant first (attacks.drop 1)
  let start_time := (parsePyTimestamp (replaceZ start_att.timestamp)).getD default
  let end_time := (parsePyTimestamp (replaceZ end_att.timestamp)).getD default
  let duration_minutes := eventInstant end_att - eventInstant start_att
  let countries := countsInOrder (attacks.map (·.source_country))
  let primary_country := firstMaxKey countries
  let attack_types := countsInOrder (attacks.map (·.attack_type))
  let signature := attack_types.map (·.1)
  let avg_interval := clusterAvgInterval attacks
  let attribution := attributeThreatActor signature primary_country avg_interval attacks.length
  let campaign_id := formatCampaignId s.next_campaign_id
  let campaign : Campaign :=
    { campaignIdNum := s.next_campaign_id
      campaign_id := campaign_id
      start_time := start_time
      end_time := end_time
      duration_minutes := pyRound duration_minutes 2
      num_attacks := attacks.length
      attack_ids := attack_ids
      primary_source_country := primary_country
      attack_types_hist := attack_types
      signature := signature
      avg_interval_minutes := pyRound avg_interval 2
      attributed_actor := attribution.actor
      confidence := attribution.confidence
      sophistication := attribution.sophistication
      severity_score := calculateSeverity attacks }
  (campaign,
   { s with campaigns := s.campaigns ++ [(campaign_id, campaign)]
            next_campaign_id := s.next_campaign_id + 1 })

/-- The feature matrix of a batch (the extraction loop at the top of
`detect_campaigns`); `none` models the `ValueError` escaping
`detect_campaigns` when some timestamp does not parse. -/
def historyFeatures : List Attack → Option (List (List ℚ))
  | [] => some []
  | a :: rest => do
    let v ← createFeatureVector a
    let vs ← historyFeatures rest
    pure (v :: vs)

def detectClusters (history : List Attack) (minPts : ℕ) : Option (List (List ℕ)) :=
  (historyFeatures history).map (fun f => dbscanClusters f minPts)

/-- The member attacks of a cluster of history indices
(`[attack_history[i] for i in cluster_indices]`; indices produced by
`dbscanClusters` are always in range, so the `getD` default is inert). -/
def clusterMembers (history : List Attack) (c : List ℕ) : List Attack :=
  c.map (fun i => history.getD i default)

/-- The campaign-forming loop at the end of `detect_campaigns`: one
campaign per cluster, and `attack_to_campaign[id] = campaign_id` for
every member. -/
def formCampaigns (history : List Attack) : List (List ℕ) → DetectorState →
    List Campaign × DetectorState
  | [], s => ([], s)
  | c :: rest, s =>
    let cluster_attacks := clusterMembers history c
    let cluster_attack_ids := cluster_attacks.map (·.id)
    let (campaign, s1) := createCampaign s cluster_attacks cluster_attack_ids
    let s2 := { s1 with attack_to_campaign :=
      s1.attack_to_campaign ++ cluster_attack_ids.map (fun i => (i, campaign.campaign_id)) }
    let (cs, s3) := formCampaigns history rest s2
    (campaign :: cs, s3)

/-- `CampaignDetector.detect_campaigns`.  Returns `none` when a
timestamp fails to parse (the `ValueError` is raised during feature
extraction, before any clustering or state mutation). -/
def detectCampaigns (s : DetectorState) (history : List Attack)
    (minPts : ℕ := 3) : Option (List Campaign × DetectorState) :=
  if history.length < minPts then some ([], s)
  else
    (historyFeatures history).map (fun f =>
      formCampaigns history (dbscanClusters f minPts) s)

/-! ### Event store and the `/api/campaigns` endpoint -/

def MAX_HISTORY : ℕ := 5000

/-- `attack_history.append(attack); if len(attack_history) > MAX_HISTORY:
attack_history.pop(0)` (the tail of `generate_mock_attack`). -/
def appendAttack (history : List Attack) (a : Attack) : List Attack :=
  let h := history ++ [a]
  if MAX_HISTORY < h.length then h.drop 1 else h

/-- The history after appending a whole stream of events in order. -/
def appendAll (events : List Attack) : List Attack :=
  events.foldl appendAttack []

structure CampaignsResponse where
  campaigns : List Campaign
  message : Option String
  deriving Repr, DecidableEq

/-- `GET /api/campaigns`: below 50 stored attacks it answers an empty
list and a message without calling the detector; otherwise it runs
`detect_campaigns(attack_history)` (with the default
`min_attacks_per_campaign=3`).  `none` models the propagated
`ValueError` (HTTP 500). -/
def getCampaignsEndpoint (history : List Attack) (s : DetectorState) :
    Option (CampaignsResponse × DetectorState) :=
  if history.length < 50 then
    some ({ campaigns := [],
            message := some ("Need " ++ toString (50 - history.length)
              ++ " more attacks to detect campaigns") }, s)
  else
    (detectCampaigns s history).map (fun r => ({ campaigns := r.1, message := none }, r.2))

/-- A sequence of detection runs on one detector instance; a run whose
batch fails feature extraction creates nothing and leaves the registry
untouched. -/
def runDetections (s : DetectorState) : List (List Attack × ℕ) → List Campaign × DetectorState
  | [] => ([], s)
  | (history, m) :: rest =>
    match detectCampaigns s history m with
    | some (cs, s') =>
      let (rest_cs, s'') := runDetections s' rest
      (cs ++ rest_cs, s'')
    | none => runDetections s rest

/-! ### List auxiliaries -/

theorem length_le_of_nodup_subset {l₁ l₂ : List ℕ} (h₁ : l₁.Nodup) (hsub : l₁ ⊆ l₂) :
    l₁.length ≤ l₂.length :=
  (h₁.subperm hsub).length_le

theorem subset_of_subset_of_length_le {l₁ l₂ : List ℕ} (h₁ : l₁.Nodup)
    (hsub : l₁ ⊆ l₂) (hlen : l₂.length ≤ l₁.length) : l₂ ⊆ l₁ := by
  intro x hx
  by_contra hxl
  have hn : (x :: l₁).Nodup := List.nodup_cons.2 ⟨hxl, h₁⟩
  have hs : (x :: l₁) ⊆ l₂ := by
    intro y hy
    rcases List.mem_cons.1 hy with rfl | hy
    · exact hx
    · exact hsub hy
  have := (hn.subperm hs).length_le
  simp only [List.length_cons] at this
  omega

theorem filter_range_ext {n : ℕ} {p q : ℕ → Bool}
    (h : ∀ x, x ∈ (List.range n).filter p ↔ x ∈ (List.range n).filter q) :
    (List.range n).filter p = (List.range n).filter q := by
  refine List.filter_congr ?_
  intro x hx
  have hiff : p x = true ↔ q x = true := by
    constructor
    · intro hp
      exact (List.mem_filter.1 ((h x).1 (List.mem_filter.2 ⟨hx, hp⟩))).2
    · intro hq
      exact (List.mem_filter.1 ((h x).2 (List.mem_filter.2 ⟨hx, hq⟩))).2
  rcases hp : p x <;> rcases hq : q x
  · rfl
  · exact absurd (hiff.2 hq) (by simp [hp])
  · exact absurd (hiff.1 hp) (by simp [hq])
  · rfl

theorem min?_of_all_eq {l : List ℕ} {a : ℕ} (hne : l ≠ []) (hall : ∀ x ∈ l, x = a) :
    l.min? = some a := by
  induction l with
  | nil => exact absurd rfl hne
  | cons b t ih =>
    have hb : b = a := hall b (List.mem_cons_self b t)
    rcases eq_or_ne t [] with rfl | ht
    · simp [List.min?, hb]
    · have ihm := ih ht (fun x hx => hall x (List.mem_cons_of_mem b hx))
      rcases t with _ | ⟨c, t'⟩
      · exact absurd rfl ht
      · simp only [List.min?_cons] at ihm ⊢
        simp only [Option.some.injEq] at ihm
        simp [hb, ihm]

theorem map_getD_range {α : Type} (l : List α) (d : α) :
    (List.range l.length).map (fun i => l.getD i d) = l := by
  induction l with
  | nil => rfl
  | cons a t ih =>
    have : t.length + 1 = t.length + 1 := rfl
    simp only [List.length_cons, List.range_succ_eq_map, List.map_cons, List.map_map]
    refine congrArg₂ _ rfl ?_
    calc (List.range t.length).map ((fun i => (a :: t).getD i d) ∘ Nat.succ)
        = (List.range t.length).map (fun i => t.getD i d) := by
          exact List.map_congr_left (fun x _ => rfl)
      _ = t := ih

/-! ### Closure infrastructure for DBSCAN components -/

section Closure

variable (f : List (List ℚ)) (m : ℕ)

theorem scaledDistSq_self (i : ℕ) : scaledDistSq f i i = 0 := by
  unfold scaledDistSq
  rw [List.sum_eq_zero]
  intro x hx
  rcases List.mem_map.1 hx with ⟨j, _, rfl⟩
  simp

theorem scaledDistSq_comm (i k : ℕ) : scaledDistSq f i k = scaledDistSq f k i := by
  unfold scaledDistSq
  refine congrArg _ (List.map_congr_left ?_)
  intro j _
  rw [show ((f.getD i []).getD j 0 - (f.getD k []).getD j 0) ^ 2
    = ((f.getD k []).getD j 0 - (f.getD i []).getD j 0) ^ 2 by ring]

theorem coreAdj_comm (i k : ℕ) : coreAdj f m i k = coreAdj f m k i := by
  unfold coreAdj
  rw [scaledDistSq_comm]
  rcases h1 : isCore f m i <;> rcases h2 : isCore f m k <;> simp

theorem mem_nbrs {i k : ℕ} :
    k ∈ nbrs f i ↔ k < f.length ∧ scaledDistSq f i k ≤ 1 / 4 := by
  unfold nbrs
  rw [List.mem_filter, List.mem_range]
  simp

theorem self_mem_nbrs {i : ℕ} (hi : i < f.length) : i ∈ nbrs f i :=
  (mem_nbrs f).2 ⟨hi, by rw [scaledDistSq_self]; norm_num⟩

theorem nbrs_nodup (i : ℕ) : (nbrs f i).Nodup :=
  (List.nodup_range _).filter _

theorem mem_grow {s : List ℕ} {k : ℕ} :
    k ∈ grow f m s ↔ k < f.length ∧ (k ∈ s ∨ ∃ i ∈ s, coreAdj f m i k = true) := by
  unfold grow
  rw [List.mem_filter, List.mem_range]
  simp [List.any_eq_true]

theorem grow_nodup (s : List ℕ) : (grow f m s).Nodup :=
  (List.nodup_range _).filter _

theorem grow_subset_range {s : List ℕ} : ∀ x ∈ grow f m s, x < f.length :=
  fun _ hx => ((mem_grow f m).1 hx).1

theorem subset_grow {s : List ℕ} (hs : ∀ x ∈ s, x < f.length) : s ⊆ grow f m s :=
  fun x hx => (mem_grow f m).2 ⟨hs x hx, Or.inl hx⟩

theorem grow_mono {s s' : List ℕ} (h : s ⊆ s') : grow f m s ⊆ grow f m s' := by
  intro x hx
  rcases (mem_grow f m).1 hx with ⟨hlt, hin | ⟨i, hi, hadj⟩⟩
  · exact (mem_grow f m).2 ⟨hlt, Or.inl (h hin)⟩
  · exact (mem_grow f m).2 ⟨hlt, Or.inr ⟨i, h hi, hadj⟩⟩

/-- `grow` only looks at the membership of its argument. -/
theorem grow_congr {s s' : List ℕ} (h : ∀ x, x ∈ s ↔ x ∈ s') :
    grow f m s = grow f m s' := by
  unfold grow
  refine List.filter_congr ?_
  intro k _
  rw [Bool.eq_iff_iff]
  simp only [Bool.or_eq_true, List.any_eq_true]
  constructor
  · rintro (hc | ⟨i, hi, hadj⟩)
    · exact Or.inl (List.elem_iff.2 ((h k).1 (List.elem_iff.1 hc)))
    · exact Or.inr ⟨i, (h i).1 hi, hadj⟩
  · rintro (hc | ⟨i, hi, hadj⟩)
    · exact Or.inl (List.elem_iff.2 ((h k).2 (List.elem_iff.1 hc)))
    · exact Or.inr ⟨i, (h i).2 hi, hadj⟩

theorem growIter_succ (t : ℕ) (s : List ℕ) :
    growIter f m (t + 1) s = grow f m (growIter f m t s) := by
  induction t generalizing s with
  | zero => rfl
  | succ t ih =>
    show growIter f m (t + 1) (grow f m s) = _
    rw [ih (grow f m s)]
    rfl

theorem growIter_subset_range {s : List ℕ} (hs : ∀ x ∈ s, x < f.length) (t : ℕ) :
    ∀ x ∈ growIter f m t s, x < f.length := by
  induction t generalizing s with
  | zero => exact hs
  | succ t ih => exact ih (grow_subset_range f m)

theorem growIter_nodup {s : List ℕ} (hs : s.Nodup) (t : ℕ) : (growIter f m t s).Nodup := by
  cases t with
  | zero => exact hs
  | succ t => rw [growIter_succ]; exact grow_nodup f m _

theorem subset_growIter {s : List ℕ} (hs : ∀ x ∈ s, x < f.length) (t : ℕ) :
    s ⊆ growIter f m t s := by
  induction t generalizing s with
  | zero => exact fun x hx => hx
  | succ t ih =>
    exact fun x hx => ih (grow_subset_range f m) (subset_grow f m hs hx)

theorem growIter_mono {s s' : List ℕ} (h : s ⊆ s') (t : ℕ) :
    growIter f m t s ⊆ growIter f m t s' := by
  induction t generalizing s s' with
  | zero => exact h
  | succ t ih => exact ih (grow_mono f m h)

theorem growIter_fixed {s : List ℕ} (h : grow f m s = s) (t : ℕ) :
    growIter f m t s = s := by
  induction t with
  | zero => rfl
  | succ t ih => rw [growIter_succ, ih, h]

theorem growIter_fuel_mono {s : List ℕ} (hs : ∀ x ∈ s, x < f.length) {a b : ℕ}
    (hab : a ≤ b) : growIter f m a s ⊆ growIter f m b s := by
  induction b with
  | zero =>
    have : a = 0 := Nat.le_zero.1 hab
    subst this; exact fun x hx => hx
  | succ b ih =>
    rcases Nat.lt_or_ge a (b + 1) with hlt | hge
    · have h1 := ih (Nat.le_of_lt_succ hlt)
      rw [growIter_succ]
      exact fun x hx => subset_grow f m (growIter_subset_range f m hs b) (h1 hx)
    · have : a = b + 1 := Nat.le_antisymm hab hge
      subst this; exact fun x hx => hx

/-- After `f.length` steps the closure is saturated. -/
theorem grow_saturates {i : ℕ} (hi : i < f.length) :
    grow f m (coreComp f m i) = coreComp f m i := by
  have hsingle : ∀ x ∈ ([i] : List ℕ), x < f.length := by
    intro x hx; rcases List.mem_singleton.1 hx with rfl; exact hi
  have hstep : ∀ t : ℕ, grow f m (growIter f m t [i]) = growIter f m t [i]
      ∨ t + 1 ≤ (growIter f m t [i]).length := by
    intro t
    induction t with
    | zero => exact Or.inr (Nat.le_refl 1)
    | succ t ih =>
      have hsub : growIter f m t [i] ⊆ growIter f m (t + 1) [i] :=
        growIter_fuel_mono f m hsingle (Nat.le_succ t)
      have hnod : (growIter f m t [i]).Nodup :=
        growIter_nodup f m (List.nodup_singleton i) t
      rcases ih with hfix | hlen
      · left
        rw [growIter_succ, hfix, hfix]
      · rcases Nat.lt_or_ge (growIter f m t [i]).length (growIter f m (t + 1) [i]).length
          with hlt | hge
        · exact Or.inr (by omega)
        · left
          have hsub' : growIter f m (t + 1) [i] ⊆ growIter f m t [i] :=
            subset_of_subset_of_length_le hnod hsub hge
          have hcongr : grow f m (growIter f m (t + 1) [i]) = grow f m (growIter f m t [i]) :=
            grow_congr f m (fun x => ⟨fun hx => hsub' hx, fun hx => hsub hx⟩)
          rw [hcongr, ← growIter_succ]
  rcases hstep f.length with hfix | hlen
  · exact hfix
  · exfalso
    have hsub : growIter f m f.length [i] ⊆ List.range f.length := fun x hx =>
      List.mem_range.2 (growIter_subset_range f m hsingle f.length x hx)
    have hnod : (growIter f m f.length [i]).Nodup :=
      growIter_nodup f m (List.nodup_singleton i) f.length
    have hle := length_le_of_nodup_subset hnod hsub
    rw [List.length_range] at hle
    omega

/-- Core components of adjacent core points coincide. -/
theorem coreComp_eq_of_adj {i k : ℕ} (hi : i < f.length) (hk : k < f.length)
    (hadj : coreAdj f m i k = true) : coreComp f m i = coreComp f m k := by
  have hsi : ∀ x ∈ ([i] : List ℕ), x < f.length := by
    intro x hx; rcases List.mem_singleton.1 hx with rfl; exact hi
  have hsk : ∀ x ∈ ([k] : List ℕ), x < f.length := by
    intro x hx; rcases List.mem_singleton.1 hx with rfl; exact hk
  have hn1 : 1 ≤ f.length := Nat.one_le_of_lt (Nat.lt_of_lt_of_le hi (Nat.le_refl _))
  -- k lies in i's component and vice versa
  have hk_in : k ∈ coreComp f m i := by
    have h1 : k ∈ grow f m [i] :=
      (mem_grow f m).2 ⟨hk, Or.inr ⟨i, List.mem_singleton_self i, hadj⟩⟩
    have h2 : grow f m [i] = growIter f m 1 [i] := rfl
    exact growIter_fuel_mono f m hsi hn1 (h2 ▸ h1)
  have hi_in : i ∈ coreComp f m k := by
    have h1 : i ∈ grow f m [k] :=
      (mem_grow f m).2 ⟨hi, Or.inr ⟨k, List.mem_singleton_self k, by
        rw [coreAdj_comm]; exact hadj⟩⟩
    have h2 : grow f m [k] = growIter f m 1 [k] := rfl
    exact growIter_fuel_mono f m hsk hn1 (h2 ▸ h1)
  -- mutual inclusion through monotonicity and saturation
  have hBA : coreComp f m k ⊆ coreComp f m i := by
    have h1 : ([k] : List ℕ) ⊆ coreComp f m i := by
      intro x hx; rcases List.mem_singleton.1 hx with rfl; exact hk_in
    have h2 : growIter f m f.length [k] ⊆ growIter f m f.length (coreComp f m i) :=
      growIter_mono f m h1 f.length
    rwa [growIter_fixed f m (grow_saturates f m hi) f.length] at h2
  have hAB : coreComp f m i ⊆ coreComp f m k := by
    have h1 : ([i] : List ℕ) ⊆ coreComp f m k := by
      intro x hx; rcases List.mem_singleton.1 hx with rfl; exact hi_in
    have h2 : growIter f m f.length [i] ⊆ growIter f m f.length (coreComp f m k) :=
      growIter_mono f m h1 f.length
    rwa [growIter_fixed f m (grow_saturates f m hk) f.length] at h2
  -- both are filters of `range`, so mutual inclusion gives equality
  have hiff : ∀ x, x ∈ coreComp f m i ↔ x ∈ coreComp f m k :=
    fun x => ⟨fun h => hAB h, fun h => hBA h⟩
  obtain ⟨t, ht⟩ : ∃ t, f.length = t + 1 := ⟨f.length - 1, by omega⟩
  have hfi : coreComp f m i = grow f m (growIter f m t [i]) := by
    show growIter f m f.length [i] = _
    rw [ht, growIter_succ]
  have hfk : coreComp f m k = grow f m (growIter f m t [k]) := by
    show growIter f m f.length [k] = _
    rw [ht, growIter_succ]
  rw [hfi, hfk]
  unfold grow
  refine filter_range_ext ?_
  intro x
  show x ∈ grow f m (growIter f m t [i]) ↔ x ∈ grow f m (growIter f m t [k])
  rw [← hfi, ← hfk]
  exact hiff x

end Closure

/-! ### Cluster facts -/

section Clusters

variable (f : List (List ℚ)) (m : ℕ)

theorem self_mem_coreComp {i : ℕ} (hi : i < f.length) : i ∈ coreComp f m i :=
  subset_growIter f m
    (fun x hx => by rcases List.mem_singleton.1 hx with rfl; exact hi) f.length
    (List.mem_singleton_self i)

theorem compSeed_eq_of_adj {i k : ℕ} (hi : i < f.length) (hk : k < f.length)
    (hadj : coreAdj f m i k = true) : compSeed f m i = compSeed f m k := by
  unfold compSeed
  rw [coreComp_eq_of_adj f m hi hk hadj]
  rcases hcc : coreComp f m k with _ | ⟨a, l⟩
  · exact absurd (hcc ▸ self_mem_coreComp f m hk) (List.not_mem_nil k)
  · rfl

theorem mem_dbscanClusters {c : List ℕ} :
    c ∈ dbscanClusters f m ↔ ∃ s < f.length, isCore f m s = true ∧ compSeed f m s = s ∧
      c = (List.range f.length).filter (fun k => seedOf f m k == some s) := by
  unfold dbscanClusters
  rw [List.mem_map]
  constructor
  · rintro ⟨s, hs, rfl⟩
    rw [List.mem_filter, List.mem_range] at hs
    obtain ⟨hslt, hcond⟩ := hs
    rw [Bool.and_eq_true, decide_eq_true_eq] at hcond
    exact ⟨s, hslt, hcond.1, hcond.2, rfl⟩
  · rintro ⟨s, hslt, hcore, hseed, rfl⟩
    refine ⟨s, ?_, rfl⟩
    rw [List.mem_filter, List.mem_range]
    exact ⟨hslt, by rw [Bool.and_eq_true, decide_eq_true_eq]; exact ⟨hcore, hseed⟩⟩

/-- With `min_samples ≤ 3` a border point cannot touch a second
component: any two core neighbors of a non-core point, together with the
point itself, would form three distinct neighbors and make it core.
Hence every eps-neighbor of a cluster's seed-component core `s` lands in
`s`'s cluster. -/
theorem seedOf_eq_of_mem_nbrs (hm : m ≤ 3) {s k : ℕ} (hsn : s < f.length)
    (hcs : isCore f m s = true) (hseed : compSeed f m s = s)
    (hk : k ∈ nbrs f s) : seedOf f m k = some s := by
  obtain ⟨hkn, hdist⟩ := (mem_nbrs f).1 hk
  by_cases hck : isCore f m k = true
  · have hadj : coreAdj f m s k = true := by
      unfold coreAdj
      rw [hcs, hck, decide_eq_true hdist]
      rfl
    unfold seedOf
    rw [if_pos hck, ← compSeed_eq_of_adj f m hsn hkn hadj, hseed]
  · have hck' : isCore f m k = false := by
      rcases h : isCore f m k
      · rfl
      · exact absurd h hck
    have hsk : s ∈ nbrs f k := (mem_nbrs f).2
      ⟨hsn, by rw [scaledDistSq_comm]; exact hdist⟩
    have hsmem : s ∈ (nbrs f k).filter (fun q => isCore f m q) :=
      List.mem_filter.2 ⟨hsk, hcs⟩
    have hall : ∀ y ∈ ((nbrs f k).filter (fun q => isCore f m q)).map (compSeed f m),
        y = s := by
      intro y hy
      rcases List.mem_map.1 hy with ⟨q, hq, rfl⟩
      obtain ⟨hqnb, hqcore⟩ := List.mem_filter.1 hq
      rcases eq_or_ne q s with rfl | hqs
      · exact hseed
      · exfalso
        -- k, s, q are three distinct neighbors of k, so k would be core
        have hks : k ≠ s := fun h => by rw [h, hcs] at hck'; cases hck'
        have hkq : k ≠ q := fun h => by rw [h, hqcore] at hck'; cases hck'
        have hsub : [k, s, q] ⊆ nbrs f k := by
          intro x hx
          rcases List.mem_cons.1 hx with rfl | hx
          · exact self_mem_nbrs f hkn
          rcases List.mem_cons.1 hx with rfl | hx
          · exact hsk
          rcases List.mem_cons.1 hx with rfl | hx
          · exact hqnb
          · cases hx
        have hsq : s ≠ q := fun h => hqs h.symm
        have hnod : ([k, s, q] : List ℕ).Nodup := by
          simp [hks, hkq, hsq]
        have h3 : 3 ≤ (nbrs f k).length := by
          have := length_le_of_nodup_subset hnod hsub
          simpa using this
        have : isCore f m k = true := by
          unfold isCore
          exact decide_eq_true (Nat.le_trans hm h3)
        exact hck this
    unfold seedOf
    rw [if_neg (fun h => hck h)]
    refine min?_of_all_eq ?_ hall
    exact List.ne_nil_of_mem (hseed ▸ List.mem_map_of_mem (compSeed f m) hsmem)

/-- With `min_samples ≤ 3`, every DBSCAN cluster contains its seed's
whole eps-neighborhood, hence has at least `min_samples` members. -/
theorem dbscan_cluster_length (hm : m ≤ 3) {c : List ℕ} (hc : c ∈ dbscanClusters f m) :
    m ≤ c.length := by
  obtain ⟨s, hslt, hcore, hseed, rfl⟩ := (mem_dbscanClusters f m).1 hc
  have hsub : nbrs f s ⊆ (List.range f.length).filter (fun k => seedOf f m k == some s) := by
    intro k hk
    refine List.mem_filter.2 ⟨List.mem_range.2 ((mem_nbrs f).1 hk).1, ?_⟩
    rw [seedOf_eq_of_mem_nbrs f m hm hslt hcore hseed hk]
    exact beq_self_eq_true _
  have h1 : m ≤ (nbrs f s).length := by
    have := hcore
    unfold isCore at this
    exact of_decide_eq_true this
  exact Nat.le_trans h1 (length_le_of_nodup_subset (nbrs_nodup f s) hsub)

/-- Every member index of a DBSCAN cluster is in range. -/
theorem dbscan_cluster_mem_lt {c : List ℕ} (hc : c ∈ dbscanClusters f m) :
    ∀ i ∈ c, i < f.length := by
  obtain ⟨s, _, _, _, rfl⟩ := (mem_dbscanClusters f m).1 hc
  intro i hi
  exact List.mem_range.1 (List.mem_filter.1 hi).1

/-- Cluster index lists are strictly ascending (they are filters of
`range`): members keep their history order. -/
theorem dbscan_cluster_sorted {c : List ℕ} (hc : c ∈ dbscanClusters f m) :
    c.Pairwise (· < ·) := by
  obtain ⟨s, _, _, _, rfl⟩ := (mem_dbscanClusters f m).1 hc
  exact List.Pairwise.sublist (List.filter_sublist _) (List.pairwise_lt_range _)

end Clusters

/-! ### Degenerate batches: identical feature vectors -/

section Degenerate

theorem colVar_replicate {n : ℕ} (hn : 1 ≤ n) (x : ℚ) :
    colVar (List.replicate n x) = 0 := by
  have hnne : ((n : ℚ)) ≠ 0 := Nat.cast_ne_zero.2 (by omega)
  have hmean : colMean (List.replicate n x) = x := by
    unfold colMean
    rw [List.sum_replicate, List.length_replicate, nsmul_eq_mul,
      mul_div_cancel_left₀ x hnne]
  unfold colVar
  rw [hmean]
  have : (List.replicate n x).map (fun y => (y - x) ^ 2) = List.replicate n 0 := by
    rw [List.map_replicate, sub_self, zero_pow (by norm_num : 2 ≠ 0)]
  rw [this, List.sum_replicate, smul_zero, zero_div]

theorem getD_replicate_lt {α : Type} {n i : ℕ} (hi : i < n) (v d : α) :
    (List.replicate n v).getD i d = v := by
  rw [List.getD_eq_getElem?_getD, List.getElem?_replicate, if_pos hi]
  rfl

theorem scaledDistSq_replicate {v : List ℚ} {n i k : ℕ} (hi : i < n) (hk : k < n) :
    scaledDistSq (List.replicate n v) i k = 0 := by
  unfold scaledDistSq
  rw [List.sum_eq_zero]
  intro x hx
  rcases List.mem_map.1 hx with ⟨j, _, rfl⟩
  rw [getD_replicate_lt hi, getD_replicate_lt hk]
  simp

theorem nbrs_replicate {v : List ℚ} {n i : ℕ} (hi : i < n) :
    nbrs (List.replicate n v) i = List.range n := by
  unfold nbrs
  rw [List.length_replicate]
  rw [List.filter_eq_self]
  intro k hk
  rw [decide_eq_true_eq]
  rw [scaledDistSq_replicate hi (List.mem_range.1 hk)]
  norm_num

theorem isCore_replicate {v : List ℚ} {n m i : ℕ} (hi : i < n) (hmn : m ≤ n) :
    isCore (List.replicate n v) m i = true := by
  unfold isCore
  rw [nbrs_replicate hi, List.length_range]
  exact decide_eq_true hmn

theorem grow_replicate_of_mem {v : List ℚ} {n m : ℕ} (hmn : m ≤ n) {s : List ℕ}
    {i₀ : ℕ} (hi₀ : i₀ ∈ s) (hi₀n : i₀ < n) :
    grow (List.replicate n v) m s = List.range n := by
  unfold grow
  rw [List.length_replicate, List.filter_eq_self]
  intro k hk
  have hkn := List.mem_range.1 hk
  have hadj : coreAdj (List.replicate n v) m i₀ k = true := by
    unfold coreAdj
    rw [isCore_replicate hi₀n hmn, isCore_replicate hkn hmn,
      decide_eq_true (by rw [scaledDistSq_replicate hi₀n hkn]; norm_num :
        scaledDistSq (List.replicate n v) i₀ k ≤ 1 / 4)]
    rfl
  rw [Bool.or_eq_true, List.any_eq_true]
  exact Or.inr ⟨i₀, hi₀, hadj⟩

theorem coreComp_replicate {v : List ℚ} {n m i : ℕ} (hi : i < n) (hmn : m ≤ n) :
    coreComp (List.replicate n v) m i = List.range n := by
  obtain ⟨t, rfl⟩ : ∃ t, n = t + 1 := ⟨n - 1, by omega⟩
  show growIter (List.replicate (t + 1) v) m (List.replicate (t + 1) v).length [i]
    = List.range (t + 1)
  rw [List.length_replicate]
  show growIter (List.replicate (t + 1) v) m t
    (grow (List.replicate (t + 1) v) m [i]) = List.range (t + 1)
  rw [grow_replicate_of_mem hmn (List.mem_singleton_self i) hi]
  exact growIter_fixed _ _
    (grow_replicate_of_mem hmn (List.mem_range.2 hi) hi) t

theorem compSeed_replicate {v : List ℚ} {n m i : ℕ} (hi : i < n) (hmn : m ≤ n) :
    compSeed (List.replicate n v) m i = 0 := by
  unfold compSeed
  rw [coreComp_replicate hi hmn]
  obtain ⟨t, ht⟩ : ∃ t, n = t + 1 := ⟨n - 1, by omega⟩
  rw [ht, List.range_succ_eq_map]
  rfl

/-- On a batch of identical feature vectors every point is within eps of
every other, all are core (once `min_samples ≤ n`), and DBSCAN returns a
single cluster holding the entire batch. -/
theorem dbscanClusters_replicate {v : List ℚ} {n m : ℕ} (hn : 1 ≤ n) (hmn : m ≤ n) :
    dbscanClusters (List.replicate n v) m = [List.range n] := by
  obtain ⟨t, rfl⟩ : ∃ t, n = t + 1 := ⟨n - 1, by omega⟩
  unfold dbscanClusters
  rw [List.length_replicate]
  have hseeds : (List.range (t + 1)).filter
      (fun i => isCore (List.replicate (t + 1) v) m i
        && decide (compSeed (List.replicate (t + 1) v) m i = i)) = [0] := by
    rw [List.range_succ_eq_map, List.filter_cons]
    have h0 : (isCore (List.replicate (t + 1) v) m 0
        && decide (compSeed (List.replicate (t + 1) v) m 0 = 0)) = true := by
      rw [isCore_replicate (Nat.succ_pos t) hmn, compSeed_replicate (Nat.succ_pos t) hmn]
      simp
    rw [if_pos h0]
    refine congrArg _ ?_
    rw [List.filter_eq_nil_iff]
    intro a ha
    rcases List.mem_map.1 ha with ⟨b, hb, rfl⟩
    have hbn : b + 1 < t + 1 := Nat.succ_lt_succ (List.mem_range.1 hb)
    rw [Bool.not_eq_true, Bool.and_eq_false_iff]
    right
    rw [decide_eq_false_iff_not, compSeed_replicate hbn hmn]
    exact fun h => Nat.succ_ne_zero b h.symm
  rw [hseeds, List.map_singleton]
  refine congrArg (fun c => [c]) ?_
  rw [List.filter_eq_self]
  intro k hk
  have hkn := List.mem_range.1 hk
  unfold seedOf
  rw [if_pos (isCore_replicate hkn hmn), compSeed_replicate hkn hmn]
  exact beq_self_eq_true _

end Degenerate

/-! ### Pipeline lemmas -/

section Pipeline

theorem createCampaign_attack_ids (s : DetectorState) (attacks : List Attack)
    (ids : List String) : (createCampaign s attacks ids).1.attack_ids = ids := rfl

theorem createCampaign_idNum (s : DetectorState) (attacks : List Attack)
    (ids : List String) : (createCampaign s attacks ids).1.campaignIdNum = s.next_campaign_id :=
  rfl

theorem createCampaign_next (s : DetectorState) (attacks : List Attack)
    (ids : List String) :
    (createCampaign s attacks ids).2.next_campaign_id = s.next_campaign_id + 1 := rfl

theorem createCampaign_num_attacks (s : DetectorState) (attacks : List Attack)
    (ids : List String) : (createCampaign s attacks ids).1.num_attacks = attacks.length := rfl

theorem historyFeatures_length {h : List Attack} {fs : List (List ℚ)}
    (hf : historyFeatures h = some fs) : fs.length = h.length := by
  induction h generalizing fs with
  | nil =>
    simp only [historyFeatures] at hf
    injection hf with hf
    subst hf; rfl
  | cons a rest ih =>
    simp only [historyFeatures, bind, Option.bind_eq_some] at hf
    obtain ⟨v, _, vs, hvs, hcons⟩ := hf
    have hcons' : v :: vs = fs := by
      injection (hcons : some (v :: vs) = some fs)
    subst hcons'
    simp [ih hvs]

theorem historyFeatures_all_eq {h : List Attack} {v : List ℚ}
    (hall : ∀ e ∈ h, createFeatureVector e = some v) :
    historyFeatures h = some (List.replicate h.length v) := by
  induction h with
  | nil => rfl
  | cons a rest ih =>
    have ha := hall a (List.mem_cons_self a rest)
    have hrest := ih (fun e he => hall e (List.mem_cons_of_mem a he))
    simp only [historyFeatures, ha, hrest]
    rfl

theorem formCampaigns_attack_ids (h : List Attack) (cls : List (List ℕ)) (s : DetectorState) :
    (formCampaigns h cls s).1.map (·.attack_ids)
      = cls.map (fun c => c.map (fun i => (h.getD i default).id)) := by
  induction cls generalizing s with
  | nil => rfl
  | cons c rest ih =>
    obtain ⟨s2, hunf⟩ : ∃ s2 : DetectorState,
        (formCampaigns h (c :: rest) s).1.map (·.attack_ids)
          = ((c.map (fun i => h.getD i default)).map (fun a => a.id))
            :: (formCampaigns h rest s2).1.map (·.attack_ids) := ⟨_, rfl⟩
    rw [hunf, ih s2, List.map_cons]
    refine congrArg₂ _ ?_ rfl
    rw [List.map_map]
    rfl

theorem formCampaigns_member_counts {h : List Attack} {cls : List (List ℕ)}
    {s : DetectorState} {cp : Campaign} (hc : cp ∈ (formCampaigns h cls s).1) :
    ∃ c ∈ cls, cp.attack_ids.length = c.length := by
  induction cls generalizing s with
  | nil => cases hc
  | cons c rest ih =>
    simp only [formCampaigns] at hc
    rcases List.mem_cons.1 hc with rfl | hc
    · refine ⟨c, List.mem_cons_self c rest, ?_⟩
      show ((c.map (fun i => h.getD i default)).map (·.id)).length = c.length
      simp
    · obtain ⟨c', hc', hlen⟩ := ih hc
      exact ⟨c', List.mem_cons_of_mem c hc', hlen⟩

theorem formCampaigns_idNums (h : List Attack) (cls : List (List ℕ)) (s : DetectorState) :
    (formCampaigns h cls s).1.map (·.campaignIdNum)
        = List.range' s.next_campaign_id cls.length
      ∧ (formCampaigns h cls s).2.next_campaign_id
        = s.next_campaign_id + cls.length := by
  induction cls generalizing s with
  | nil => exact ⟨rfl, rfl⟩
  | cons c rest ih =>
    obtain ⟨s2, hunf1, hunf2, hs2⟩ : ∃ s2 : DetectorState,
        ((formCampaigns h (c :: rest) s).1.map (·.campaignIdNum)
          = s.next_campaign_id :: (formCampaigns h rest s2).1.map (·.campaignIdNum))
        ∧ (formCampaigns h (c :: rest) s).2.next_campaign_id
          = (formCampaigns h rest s2).2.next_campaign_id
        ∧ s2.next_campaign_id = s.next_campaign_id + 1 := ⟨_, rfl, rfl, rfl⟩
    obtain ⟨ih1, ih2⟩ := ih s2
    constructor
    · rw [hunf1, ih1, hs2, List.length_cons, List.range'_succ]
    · rw [hunf2, ih2, hs2, List.length_cons]
      omega

end Pipeline

/-! ### Rounding bound -/

theorem pyRoundInt_le {q : ℚ} {M : ℤ} (h : q ≤ M) : pyRoundInt q ≤ M := by
  unfold pyRoundInt
  have hf : ⌊q⌋ ≤ M := by
    have := Int.floor_le_floor h
    rwa [Int.floor_intCast] at this
  by_cases h1 : q - ⌊q⌋ < 1 / 2
  · rw [if_pos h1]; exact hf
  · rw [if_neg h1]
    have hlow : (⌊q⌋ : ℚ) + 1 / 2 ≤ q := by
      have := not_lt.1 h1
      linarith
    have hstrict : (⌊q⌋ : ℚ) < M := by
      have hqM : q ≤ (M : ℚ) := h
      linarith
    have hsucc : ⌊q⌋ + 1 ≤ M := by exact_mod_cast Int.add_one_le_of_lt (by exact_mod_cast hstrict)
    by_cases h2 : 1 / 2 < q - ⌊q⌋
    · rw [if_pos h2]; exact hsucc
    · rw [if_neg h2]
      by_cases h3 : ⌊q⌋ % 2 = 0
      · rw [if_pos h3]; exact hf
      · rw [if_neg h3]; exact hsucc

theorem pyRound_min_cap (q : ℚ) : pyRound (min (97 / 100) q) 4 ≤ 97 / 100 := by
  unfold pyRound
  have h1 : min (97 / 100 : ℚ) q * 10 ^ 4 ≤ ((9700 : ℤ) : ℚ) := by
    have := min_le_left (97 / 100 : ℚ) q
    push_cast
    nlinarith
  have h2 := pyRoundInt_le h1
  have h3 : ((pyRoundInt (min (97 / 100) q * 10 ^ 4)) : ℚ) ≤ ((9700 : ℤ) : ℚ) := by
    exact_mod_cast h2
  calc ((pyRoundInt (min (97 / 100) q * 10 ^ 4)) : ℚ) / 10 ^ 4
      ≤ ((9700 : ℤ) : ℚ) / 10 ^ 4 := by
        apply div_le_div_of_nonneg_right h3
        norm_num
    _ = 97 / 100 := by norm_num

/-! ### Campaign id formatting -/

/-- Reads a digit string back as a number (inverse of `natDigits`). -/
def digitsVal (l : List Char) : ℕ := l.foldl (fun acc c => 10 * acc + digitVal c) 0

theorem digitVal_ofNat {d : ℕ} (hd : d < 10) : digitVal (Char.ofNat (48 + d)) = d := by
  interval_cases d <;> rfl

theorem digitsVal_append_digit (l : List Char) (c : Char) :
    digitsVal (l ++ [c]) = 10 * digitsVal l + digitVal c := by
  unfold digitsVal
  rw [List.foldl_append]
  rfl

theorem digitsVal_natDigits (n : ℕ) : digitsVal (natDigits n) = n := by
  induction n using Nat.strong_induction_on with
  | _ n ih =>
    rw [natDigits]
    by_cases h : n < 10
    · rw [dif_pos h]
      show 10 * 0 + digitVal (Char.ofNat (48 + n)) = n
      rw [digitVal_ofNat h]
      omega
    · rw [dif_neg h]
      rw [digitsVal_append_digit, ih (n / 10) (Nat.div_lt_self (by omega) (by norm_num))]
      rw [digitVal_ofNat (Nat.mod_lt n (by norm_num))]
      omega

theorem digitsVal_pad4 (l : List Char) : digitsVal (pad4 l) = digitsVal l := by
  unfold pad4 digitsVal
  rw [List.foldl_append]
  have : ∀ k : ℕ, (List.replicate k '0').foldl (fun acc c => 10 * acc + digitVal c) 0 = 0 := by
    intro k
    induction k with
    | zero => rfl
    | succ k ihk =>
      rw [List.replicate_succ, List.foldl_cons]
      show (List.replicate k '0').foldl (fun acc c => 10 * acc + digitVal c) 0 = 0
      exact ihk
  rw [this]

theorem formatCampaignId_injective {a b : ℕ} (h : formatCampaignId a = formatCampaignId b) :
    a = b := by
  unfold formatCampaignId at h
  have hdata : "CAMPAIGN_".data ++ pad4 (natDigits a)
      = "CAMPAIGN_".data ++ pad4 (natDigits b) := by
    injection h
  have hpad : pad4 (natDigits a) = pad4 (natDigits b) :=
    List.append_cancel_left hdata
  have := congrArg digitsVal hpad
  rwa [digitsVal_pad4, digitsVal_pad4, digitsVal_natDigits, digitsVal_natDigits] at this

/-! ### Detection-run sequences -/

theorem detectCampaigns_idNums {s : DetectorState} {history : List Attack} {m : ℕ}
    {cs : List Campaign} {s' : DetectorState}
    (hdet : detectCampaigns s history m = some (cs, s')) :
    cs.map (·.campaignIdNum) = List.range' s.next_campaign_id cs.length
    ∧ s'.next_campaign_id = s.next_campaign_id + cs.length := by
  unfold detectCampaigns at hdet
  by_cases hlen : history.length < m
  · rw [if_pos hlen] at hdet
    injection hdet with hdet
    injection hdet with ha hb
    subst ha; subst hb
    exact ⟨rfl, rfl⟩
  · rw [if_neg hlen] at hdet
    rcases hf : historyFeatures history with _ | fs
    · rw [hf] at hdet; cases hdet
    · rw [hf] at hdet
      have hpair : formCampaigns history (dbscanClusters fs m) s = (cs, s') := by
        injection hdet
      obtain ⟨h1, h2⟩ := formCampaigns_idNums history (dbscanClusters fs m) s
      rw [hpair] at h1 h2
      have hlen2 : cs.length = (dbscanClusters fs m).length := by
        have := congrArg List.length h1
        simpa using this
      rw [← hlen2] at h1 h2
      exact ⟨h1, h2⟩

theorem formCampaigns_id_format {h : List Attack} {cls : List (List ℕ)} {s : DetectorState}
    {cp : Campaign} (hcp : cp ∈ (formCampaigns h cls s).1) :
    cp.campaign_id = formatCampaignId cp.campaignIdNum := by
  induction cls generalizing s with
  | nil => cases hcp
  | cons c rest ih =>
    simp only [formCampaigns] at hcp
    rcases List.mem_cons.1 hcp with rfl | hcp
    · rfl
    · exact ih hcp

theorem detectCampaigns_id_format {s : DetectorState} {history : List Attack} {m : ℕ}
    {cs : List Campaign} {s' : DetectorState}
    (hdet : detectCampaigns s history m = some (cs, s')) {cp : Campaign} (hcp : cp ∈ cs) :
    cp.campaign_id = formatCampaignId cp.campaignIdNum := by
  unfold detectCampaigns at hdet
  by_cases hlen : history.length < m
  · rw [if_pos hlen] at hdet
    injection hdet with hdet
    injection hdet with ha _
    subst ha
    cases hcp
  · rw [if_neg hlen] at hdet
    rcases hf : historyFeatures history with _ | fs
    · rw [hf] at hdet; cases hdet
    · rw [hf] at hdet
      have hpair : formCampaigns history (dbscanClusters fs m) s = (cs, s') := by
        injection hdet
      refine @formCampaigns_id_format history (dbscanClusters fs m) s cp ?_
      rw [hpair]
      exact hcp

theorem runDetections_invariant (runs : List (List Attack × ℕ)) (s : DetectorState) :
    ((runDetections s runs).1.map (·.campaignIdNum)).Pairwise (· < ·)
    ∧ (∀ x ∈ (runDetections s runs).1.map (·.campaignIdNum),
        s.next_campaign_id ≤ x ∧ x < (runDetections s runs).2.next_campaign_id)
    ∧ s.next_campaign_id ≤ (runDetections s runs).2.next_campaign_id
    ∧ (∀ cp ∈ (runDetections s runs).1, cp.campaign_id = formatCampaignId cp.campaignIdNum) := by
  induction runs generalizing s with
  | nil =>
    refine ⟨List.Pairwise.nil, ?_, Nat.le_refl _, ?_⟩
    · intro x hx
      exact absurd hx (by simp [runDetections])
    · intro cp hcp
      exact absurd hcp (by simp [runDetections])
  | cons run rest ih =>
    rcases hdet : detectCampaigns s run.1 run.2 with _ | ⟨cs, s1⟩
    · have hunf : runDetections s (run :: rest) = runDetections s rest := by
        show (match detectCampaigns s run.1 run.2 with
          | some (cs, s') =>
            let r := runDetections s' rest
            (cs ++ r.1, r.2)
          | none => runDetections s rest) = runDetections s rest
        rw [hdet]
      rw [hunf]
      exact ih s
    · obtain ⟨hids, hnext⟩ := detectCampaigns_idNums hdet
      have hunf : runDetections s (run :: rest)
          = (cs ++ (runDetections s1 rest).1, (runDetections s1 rest).2) := by
        show (match detectCampaigns s run.1 run.2 with
          | some (cs, s') =>
            let r := runDetections s' rest
            (cs ++ r.1, r.2)
          | none => runDetections s rest) = _
        rw [hdet]
      obtain ⟨ih1, ih2, ih3, ih4⟩ := ih s1
      have hcs_bounds : ∀ x ∈ cs.map (·.campaignIdNum),
          s.next_campaign_id ≤ x ∧ x < s1.next_campaign_id := by
        intro x hx
        rw [hids, List.mem_range'] at hx
        obtain ⟨i, hi, rfl⟩ := hx
        omega
      rw [hunf]
      refine ⟨?_, ?_, ?_, ?_⟩
      · rw [List.map_append, List.pairwise_append]
        refine ⟨?_, ih1, ?_⟩
        · rw [hids]
          exact List.pairwise_lt_range' _ _
        · intro a ha b hb
          have h1 := (hcs_bounds a ha).2
          have h2 := (ih2 b hb).1
          omega
      · intro x hx
        rw [List.map_append, List.mem_append] at hx
        rcases hx with hx | hx
        · obtain ⟨hxl, hxu⟩ := hcs_bounds x hx
          exact ⟨hxl, Nat.lt_of_lt_of_le hxu ih3⟩
        · obtain ⟨hxl, hxu⟩ := ih2 x hx
          exact ⟨by omega, hxu⟩
      · exact Nat.le_trans (by omega : s.next_campaign_id ≤ s1.next_campaign_id) ih3
      · intro cp hcp
        rcases List.mem_append.1 hcp with hcp | hcp
        · exact detectCampaigns_id_format hdet hcp
        · exact ih4 cp hcp

/-! ### Event store fold -/

theorem foldl_appendAttack (es : List Attack) : ∀ h : List Attack, h.length ≤ MAX_HISTORY →
    es.foldl appendAttack h = (h ++ es).drop ((h ++ es).length - MAX_HISTORY) := by
  induction es with
  | nil =>
    intro h hh
    rw [List.foldl_nil, List.append_nil]
    rw [show h.length - MAX_HISTORY = 0 by omega, List.drop_zero]
  | cons a es ih =>
    intro h hh
    rw [List.foldl_cons]
    by_cases hc : MAX_HISTORY < (h ++ [a]).length
    · have h1 : appendAttack h a = (h ++ [a]).drop 1 := by
        unfold appendAttack
        rw [if_pos hc]
      have hhl : h.length = MAX_HISTORY := by
        rw [List.length_append, List.length_cons, List.length_nil] at hc
        omega
      have hlen : (appendAttack h a).length ≤ MAX_HISTORY := by
        rw [h1, List.length_drop, List.length_append, List.length_singleton]
        omega
      rw [ih _ hlen, h1]
      have e1 : (h ++ [a]).drop 1 ++ es = (h ++ a :: es).drop 1 := by
        rw [← List.drop_append_of_le_length (by
          rw [List.length_append, List.length_singleton]; omega : 1 ≤ (h ++ [a]).length)]
        rw [List.append_assoc, List.singleton_append]
      rw [e1, List.drop_drop]
      have hL : MAX_HISTORY + 1 ≤ (h ++ a :: es).length := by
        rw [List.length_append, List.length_cons]
        omega
      refine congrArg (fun k => (h ++ a :: es).drop k) ?_
      rw [List.length_drop]
      omega
    · have h1 : appendAttack h a = h ++ [a] := by
        unfold appendAttack
        rw [if_neg hc]
      have hlen : (appendAttack h a).length ≤ MAX_HISTORY := by
        rw [h1]; omega
      rw [ih _ hlen, h1]
      rw [List.append_assoc, List.singleton_append]

/-! ### Concrete batches used as witnesses and counterexamples -/

/-- A DDoS event from Russia targeting China, intensity 9, at fixed
coordinates. -/
def ddosAttack (i ts : String) : Attack := ⟨i, "DDoS", "Russia", "China", 45, 90, 9, ts⟩

/-- Two events, five minutes apart: below the default minimum cluster
size of 3 (the spec's first example scenario). -/
def batchTwo : List Attack :=
  [ddosAttack "t1" "2024-01-01T00:00:00+00:00",
   ddosAttack "t2" "2024-01-01T00:05:00+00:00"]

/-- Three events with identical timestamps and fields: every feature
vector is identical, so standardization is fully degenerate (all eight
columns have zero variance). -/
def batchIdentical : List Attack :=
  [ddosAttack "deg1" "2024-01-01T00:00:00+00:00",
   ddosAttack "deg2" "2024-01-01T00:00:00+00:00",
   ddosAttack "deg3" "2024-01-01T00:00:00+00:00"]

/-- Five DDoS events from Russia at ten-minute intervals (the spec's
second example scenario). -/
def batchFive : List Attack :=
  [ddosAttack "a1" "2024-01-01T00:00:00+00:00",
   ddosAttack "a2" "2024-01-01T00:10:00+00:00",
   ddosAttack "a3" "2024-01-01T00:20:00+00:00",
   ddosAttack "a4" "2024-01-01T00:30:00+00:00",
   ddosAttack "a5" "2024-01-01T00:40:00+00:00"]

/-- The timing input as the spec words it: the mean inter-event interval
in minutes among the chronologically sorted members (and 0 for a single
member). -/
def specSortedMeanInterval (attacks : List Attack) : ℚ :=
  let sorted := attacks.insertionSort (fun a b => eventInstant a ≤ eventInstant b)
  let diffs := consecDiffs (sorted.map eventInstant)
  if diffs.isEmpty then 0 else diffs.sum / diffs.length

/-! ### The claims -/

set_option maxRecDepth 400000 in
/-- C1 (counterexample): for the five-event DDoS/Russia scenario the
decision chain selects rule 3 (actor "Hacktivist Collective", rule
constant 0.85), but the confidence actually returned — and stored on the
campaign — is the weighted composite 0.815 =
0.40·0.80 + 0.25·0.92 + 0.20·0.95 + 0.15·0.50, which is not one of the
five rule constants. -/
theorem confidence_not_rule_constant :
    (attributeThreatActor ["DDoS"] "Russia" 10 5).confidence = 163 / 200
    ∧ (attributeThreatActor ["DDoS"] "Russia" 10 5).actor = "Hacktivist Collective"
    ∧ ruleConfidence ["DDoS"] "Russia" 10 5 = 85 / 100
    ∧ ((163 : ℚ) / 200) ∉ [(92 : ℚ) / 100, 89 / 100, 85 / 100, 78 / 100, 65 / 100]
    ∧ (detectCampaigns initialDetectorState batchFive 3).map
        (fun r => r.1.map (·.confidence)) = some [163 / 200] := by
  with_unfolding_all decide

/-- C1 (amended): the confidence returned by the Attribution Engine (and
stored on the campaign) is the weighted composite
0.40·signature + 0.25·geographic + 0.20·timing + 0.15·operational,
capped at 0.97 and rounded to 4 digits; the per-rule constants
0.92/0.89/0.85/0.78/0.65 are computed by the decision chain but never
returned — only the actor label (and sophistication) escape it.  In
particular the returned confidence never exceeds 0.97. -/
theorem confidence_is_weighted_composite (attack_types : List String) (country : String)
    (interval : ℚ) (num_attacks : ℕ) :
    (attributeThreatActor attack_types country interval num_attacks).confidence
      = pyRound (min (97 / 100)
          (getSignatureScore attack_types * (40 / 100)
            + getGeographicScore country * (25 / 100)
            + getTimingScore interval num_attacks * (20 / 100)
            + getOperationalScore attack_types num_attacks * (15 / 100))) 4
    ∧ (attributeThreatActor attack_types country interval num_attacks).confidence
        ≤ 97 / 100 := by
  refine ⟨rfl, ?_⟩
  exact pyRound_min_cap _

/-- C2: a batch smaller than `min_cluster_size` yields an empty campaign
list, with the registry state untouched (the guard returns before
feature extraction or clustering run). -/
theorem detect_small_batch_empty (s : DetectorState) (history : List Attack) (m : ℕ)
    (h : history.length < m) : detectCampaigns s history m = some ([], s) := by
  unfold detectCampaigns
  rw [if_pos h]

theorem detect_small_batch_empty_witness :
    batchTwo.length < 3
    ∧ detectCampaigns initialDetectorState batchTwo 3 = some ([], initialDetectorState) :=
  ⟨by decide, detect_small_batch_empty initialDetectorState batchTwo 3 (by decide)⟩

/-- C6: feeding any event stream through `append` (tail insert, then
evict exactly the head once the bound is crossed) keeps exactly the most
recent `MAX_HISTORY = 5000` events, in order: eviction is strictly FIFO
and the store never exceeds its bound. -/
theorem event_store_bounded_fifo (events : List Attack) :
    appendAll events = events.drop (events.length - MAX_HISTORY)
    ∧ (appendAll events).length ≤ MAX_HISTORY := by
  have h := foldl_appendAttack events [] (by simp [MAX_HISTORY])
  rw [List.nil_append] at h
  constructor
  · exact h
  · show (List.foldl appendAttack [] events).length ≤ MAX_HISTORY
    rw [h, List.length_drop]
    omega

/-- C7: `create_attack_features` is a pure function whose only failure
mode is an unparseable timestamp (unknown countries and attack types map
to code 0 instead of failing), and a successful extraction always yields
the 8-dimensional vector. -/
theorem feature_extraction_fails_iff_timestamp (a : Attack) :
    ((create_attack_features a).isSome
      ↔ (parsePyTimestamp (replaceZ a.timestamp)).isSome)
    ∧ ∀ ft, create_attack_features a = some ft → (featureVectorOf ft).length = 8 := by
  constructor
  · unfold create_attack_features
    cases parsePyTimestamp (replaceZ a.timestamp) <;> simp
  · intro ft _
    rfl

theorem feature_extraction_fails_iff_timestamp_witness :
    ((create_attack_features (ddosAttack "w" "2024-01-01T00:00:00+00:00")).isSome
      ↔ (parsePyTimestamp (replaceZ "2024-01-01T00:00:00+00:00")).isSome)
    ∧ (featureVectorOf ⟨0, 0, 3, 1, 9, 2, 45, 90⟩).length = 8 :=
  ⟨(feature_extraction_fails_iff_timestamp (ddosAttack "w" "2024-01-01T00:00:00+00:00")).1,
   (feature_extraction_fails_iff_timestamp (ddosAttack "w" "2024-01-01T00:00:00+00:00")).2
     ⟨0, 0, 3, 1, 9, 2, 45, 90⟩ (by with_unfolding_all decide)⟩

/-- C9: clustering is deterministic and independent of the registry
state: two detection runs over the identical batch (same order) — from
any two detector states, in particular before and after other runs —
produce campaigns with identical member-id lists. -/
theorem detect_membership_state_independent (s₁ s₂ : DetectorState)
    (history : List Attack) (m : ℕ) :
    (detectCampaigns s₁ history m).map (fun r => r.1.map (·.attack_ids))
      = (detectCampaigns s₂ history m).map (fun r => r.1.map (·.attack_ids)) := by
  unfold detectCampaigns
  by_cases h : history.length < m
  · rw [if_pos h, if_pos h]
    rfl
  · rw [if_neg h, if_neg h]
    rcases hf : historyFeatures history with _ | fs
    · rfl
    · show some ((formCampaigns history (dbscanClusters fs m) s₁).1.map (·.attack_ids))
        = some ((formCampaigns history (dbscanClusters fs m) s₂).1.map (·.attack_ids))
      rw [formCampaigns_attack_ids, formCampaigns_attack_ids]

/-- C10: while fewer than 50 attacks are stored, `GET /api/campaigns`
answers an empty list plus a message and never invokes the detector (the
registry state is returned unchanged), even though the detector itself
would already work from `min_cluster_size = 3` events. -/
theorem campaigns_endpoint_below_threshold (history : List Attack) (s : DetectorState)
    (h : history.length < 50) :
    getCampaignsEndpoint history s
      = some ({ campaigns := [],
                message := some ("Need " ++ toString (50 - history.length)
                  ++ " more attacks to detect campaigns") }, s) := by
  unfold getCampaignsEndpoint
  rw [if_pos h]

theorem campaigns_endpoint_below_threshold_witness :
    batchFive.length < 50
    ∧ getCampaignsEndpoint batchFive initialDetectorState
      = some ({ campaigns := [],
                message := some ("Need " ++ toString (50 - batchFive.length)
                  ++ " more attacks to detect campaigns") }, initialDetectorState) :=
  ⟨by decide, campaigns_endpoint_below_threshold batchFive initialDetectorState (by decide)⟩

set_option maxRecDepth 400000 in
/-- C3 (counterexample): a fully degenerate batch — three identical
events, so all eight feature columns have zero variance — does not
produce an empty list: after scaling every vector is the zero vector,
all points fall within eps of each other, and detection returns one
campaign holding the whole batch. -/
theorem degenerate_batch_yields_campaign :
    (detectCampaigns initialDetectorState batchIdentical 3).map
        (fun r => r.1.map (·.attack_ids)) = some [["deg1", "deg2", "deg3"]]
    ∧ (detectCampaigns initialDetectorState batchIdentical 3).map
        (fun r => r.1.length) ≠ some 0 := by
  with_unfolding_all decide

/-- C3 (amended): on a degenerate batch (every feature vector identical,
so every dimension has zero variance) detection does not fail —
zero-variance dimensions contribute 0 after scaling — but, once the
batch reaches `min_cluster_size`, it returns a single campaign
containing the entire batch rather than an empty list. -/
theorem detect_all_identical_single_campaign (s : DetectorState) {history : List Attack}
    {v : List ℚ} {m : ℕ} (hm1 : 1 ≤ m) (hmn : m ≤ history.length)
    (hfeat : ∀ e ∈ history, createFeatureVector e = some v) :
    ∃ c s', detectCampaigns s history m = some ([c], s')
      ∧ c.attack_ids = history.map (·.id) := by
  have hfeats := historyFeatures_all_eq hfeat
  have hnot : ¬ history.length < m := by omega
  have hn1 : 1 ≤ history.length := le_trans hm1 hmn
  have hdb := dbscanClusters_replicate (v := v) hn1 hmn
  obtain ⟨c, s', hform⟩ : ∃ c s',
      formCampaigns history [List.range history.length] s = ([c], s') := ⟨_, _, rfl⟩
  refine ⟨c, s', ?_, ?_⟩
  · unfold detectCampaigns
    rw [if_neg hnot, hfeats]
    show some (formCampaigns history
      (dbscanClusters (List.replicate history.length v) m) s) = some ([c], s')
    rw [hdb, hform]
  · have h1 : [c].map (·.attack_ids)
        = (formCampaigns history [List.range history.length] s).1.map (·.attack_ids) := by
      rw [hform]
    rw [formCampaigns_attack_ids] at h1
    simp only [List.map_cons, List.map_nil] at h1
    injection h1 with h2 _
    rw [h2]
    calc (List.range history.length).map (fun i => (history.getD i default).id)
        = ((List.range history.length).map (fun i => history.getD i default)).map
            (fun a => a.id) := by rw [List.map_map]; rfl
      _ = history.map (fun a => a.id) := by rw [map_getD_range]

theorem detect_all_identical_single_campaign_witness :
    ∃ c s', detectCampaigns initialDetectorState batchIdentical 3 = some ([c], s')
      ∧ c.attack_ids = batchIdentical.map (·.id) :=
  detect_all_identical_single_campaign initialDetectorState
    (v := [0, 0, 3, 1, 9, 2, 1 / 2, 1 / 2])
    (by norm_num) (by decide) (by with_unfolding_all decide)

/-- C4: every campaign produced by a detection run has at least
`min_cluster_size` member event ids.  The program only ever invokes
detection with the default `min_attacks_per_campaign = 3`; the theorem
covers every `min_samples ≤ 3`: a DBSCAN cluster contains the whole
eps-neighborhood of its seed core point, since with `min_samples ≤ 3` a
border point adjacent to cores of two components would itself have three
distinct neighbors and hence be core. -/
theorem campaign_member_count_ge {s : DetectorState} {history : List Attack} {m : ℕ}
    (hm : m ≤ 3) {cs : List Campaign} {s' : DetectorState}
    (hdet : detectCampaigns s history m = some (cs, s')) {c : Campaign} (hc : c ∈ cs) :
    m ≤ c.attack_ids.length := by
  unfold detectCampaigns at hdet
  by_cases hlen : history.length < m
  · rw [if_pos hlen] at hdet
    injection hdet with hdet
    injection hdet with ha _
    subst ha
    cases hc
  · rw [if_neg hlen] at hdet
    rcases hf : historyFeatures history with _ | fs
    · rw [hf] at hdet; cases hdet
    · rw [hf] at hdet
      have hpair : formCampaigns history (dbscanClusters fs m) s = (cs, s') := by
        injection hdet
      have hc' : c ∈ (formCampaigns history (dbscanClusters fs m) s).1 := by
        rw [hpair]; exact hc
      obtain ⟨cl, hcl, hlen_eq⟩ := formCampaigns_member_counts hc'
      rw [hlen_eq]
      exact dbscan_cluster_length fs m hm hcl

set_option maxRecDepth 400000 in
theorem campaign_member_count_ge_witness :
    (detectCampaigns initialDetectorState batchIdentical 3).map
        (fun r => r.1.all (fun c => decide (3 ≤ c.attack_ids.length))) = some true := by
  obtain ⟨cs, s', hdet⟩ : ∃ cs s',
      detectCampaigns initialDetectorState batchIdentical 3 = some (cs, s') := by
    with_unfolding_all exact ⟨_, _, rfl⟩
  rw [hdet]
  show some (cs.all (fun c => decide (3 ≤ c.attack_ids.length))) = some true
  refine congrArg some ?_
  rw [List.all_eq_true]
  intro c hcmem
  exact decide_eq_true (campaign_member_count_ge (by norm_num) hdet hcmem)

/-- C5: across any sequence of detection runs on one detector instance
(from any starting state), the numeric campaign ids are minted from the
monotonically increasing counter — the list of created ids is strictly
increasing, hence pairwise unique — the formatted id strings
(`CAMPAIGN_` plus the zero-padded counter, `%04d`) are pairwise
distinct, and every stored id string is exactly the formatting of its
numeric counter value. -/
theorem campaign_ids_strictly_increasing (s : DetectorState) (runs : List (List Attack × ℕ)) :
    ((runDetections s runs).1.map (·.campaignIdNum)).Pairwise (· < ·)
    ∧ ((runDetections s runs).1.map (·.campaign_id)).Pairwise (· ≠ ·)
    ∧ ∀ cp ∈ (runDetections s runs).1,
        cp.campaign_id = formatCampaignId cp.campaignIdNum := by
  obtain ⟨h1, _, _, h4⟩ := runDetections_invariant runs s
  refine ⟨h1, ?_, h4⟩
  rw [List.pairwise_map]
  rw [List.pairwise_map] at h1
  refine List.Pairwise.imp_of_mem ?_ h1
  intro a b ha hb hlt
  rw [h4 a ha, h4 b hb]
  intro heq
  have := formatCampaignId_injective heq
  omega

/-- C8: for every cluster produced by a detection run over a
chronologically ordered history (timestamps non-decreasing in store
order, as ingestion guarantees), the `avg_interval` handed to the
Attribution Engine equals the mean inter-event interval among the
chronologically sorted members, and the timing sub-score computed from
it is the stated step function of that interval and the member count:
fewer than 3 members → 0.50; interval < 30 → 0.95; < 60 → 0.88;
< 120 → 0.80; < 720 → 0.65; else 0.45. -/
theorem cluster_timing_score_chronological {history : List Attack} {m : ℕ}
    {cls : List (List ℕ)} (hdet : detectClusters history m = some cls)
    (hmono : (history.map eventInstant).Pairwise (· ≤ ·))
    {c : List ℕ} (hc : c ∈ cls) :
    clusterAvgInterval (clusterMembers history c)
        = specSortedMeanInterval (clusterMembers history c)
    ∧ getTimingScore (clusterAvgInterval (clusterMembers history c))
          (clusterMembers history c).length
        = (if (clusterMembers history c).length < 3 then 50 / 100
           else if specSortedMeanInterval (clusterMembers history c) < 30 then 95 / 100
           else if specSortedMeanInterval (clusterMembers history c) < 60 then 88 / 100
           else if specSortedMeanInterval (clusterMembers history c) < 120 then 80 / 100
           else if specSortedMeanInterval (clusterMembers history c) < 720 then 65 / 100
           else 45 / 100) := by
  unfold detectClusters at hdet
  rcases hf : historyFeatures history with _ | fs
  · rw [hf] at hdet; cases hdet
  rw [hf] at hdet
  have hcls : dbscanClusters fs m = cls := by injection hdet
  subst hcls
  have hflen : fs.length = history.length := historyFeatures_length hf
  have hlt : ∀ i ∈ c, i < history.length := by
    intro i hi
    rw [← hflen]
    exact dbscan_cluster_mem_lt fs m hc i hi
  have hsorted_idx : c.Pairwise (· < ·) := dbscan_cluster_sorted fs m hc
  have hinst : ∀ i j : ℕ, i < j → j < history.length →
      eventInstant (history.getD i default) ≤ eventInstant (history.getD j default) := by
    intro i j hij hj
    have hi : i < history.length := Nat.lt_trans hij hj
    have hp := List.pairwise_iff_getElem.1 hmono i j
      (by simpa using hi) (by simpa using hj) hij
    rw [List.getElem_map, List.getElem_map] at hp
    rwa [List.getD_eq_getElem?_getD, List.getElem?_eq_getElem hi, Option.getD_some,
      List.getD_eq_getElem?_getD, List.getElem?_eq_getElem hj, Option.getD_some]
  have hmembers_sorted : (clusterMembers history c).Pairwise
      (fun a b => eventInstant a ≤ eventInstant b) := by
    unfold clusterMembers
    rw [List.pairwise_map]
    refine List.Pairwise.imp_of_mem ?_ hsorted_idx
    intro i j hi hj hij
    exact hinst i j hij (hlt j hj)
  have hsort_eq : (clusterMembers history c).insertionSort
      (fun a b => eventInstant a ≤ eventInstant b) = clusterMembers history c :=
    List.Sorted.insertionSort_eq hmembers_sorted
  have hmain : clusterAvgInterval (clusterMembers history c)
      = specSortedMeanInterval (clusterMembers history c) := by
    unfold specSortedMeanInterval clusterAvgInterval
    rw [hsort_eq]
  refine ⟨hmain, ?_⟩
  rw [hmain]
  rfl

set_option maxRecDepth 400000 in
theorem cluster_timing_score_chronological_witness :
    clusterAvgInterval (clusterMembers batchFive [0, 1, 2, 3, 4])
        = specSortedMeanInterval (clusterMembers batchFive [0, 1, 2, 3, 4])
    ∧ getTimingScore (clusterAvgInterval (clusterMembers batchFive [0, 1, 2, 3, 4]))
          (clusterMembers batchFive [0, 1, 2, 3, 4]).length
        = (if (clusterMembers batchFive [0, 1, 2, 3, 4]).length < 3 then 50 / 100
           else if specSortedMeanInterval (clusterMembers batchFive [0, 1, 2, 3, 4]) < 30
             then 95 / 100
           else if specSortedMeanInterval (clusterMembers batchFive [0, 1, 2, 3, 4]) < 60
             then 88 / 100
           else if specSortedMeanInterval (clusterMembers batchFive [0, 1, 2, 3, 4]) < 120
             then 80 / 100
           else if specSortedMeanInterval (clusterMembers batchFive [0, 1, 2, 3, 4]) < 720
             then 65 / 100
           else 45 / 100) :=
  @cluster_timing_score_chronological batchFive 3 [[0, 1, 2, 3, 4]]
    (by with_unfolding_all decide)
    (by with_unfolding_all decide)
    [0, 1, 2, 3, 4]
    (by decide)

end ThreatMap
